import Mathlib

/-!
# Verification of the ReactiveS3 synchronization/caching engine

A shallow embedding of `src/frontend/src/state/ReactiveS3.ts`:
the `ReactiveIndex` reconciliation engine (last-writer-wins merge of file
records, children derivation, children-listener diffing, network-error
bookkeeping, upload/delete/fullRefresh), the `ReactiveCursor` re-pointing
protocol and virtual-folder synthesis, and the `ReactiveJsonFile` debounced
write-coalescing layer.

Modelling conventions:
* JavaScript strings are modelled as `List Char` (`Str`).
* A JavaScript `Map` is modelled as an insertion-ordered association list
  (`SMap α`): `set` replaces the value of the first entry with the given key
  in place (keeping its position) or appends a fresh entry at the end, and
  `get` returns the value of the first matching entry, exactly like
  `Map.set` / `Map.get` for a map whose keys are unique.
* `Date` values are modelled by their numeric timestamps (`Nat`), which is
  what the source compares with `<` and `>`.
* Asynchronous completions of the external blob store are modelled by a
  `Bool`/`Option` outcome parameter; promise resolution/rejection is the
  `Except Unit Unit` component of a result.
* Observable effects (listener invocations, pub/sub publishes, uploads) are
  returned as explicit event lists.
-/

abbrev Str : Type := List Char

/-- Convert a Lean string literal to the `List Char` representation. -/
def s2l (s : String) : Str := s.toList

/-- Insertion-ordered association list keyed by strings: the model of a
JavaScript `Map` with string keys. -/
abbrev SMap (α : Type) : Type := List (Str × α)

namespace SMap

variable {α : Type}

/-- `Map.get`: value of the first entry with the given key. -/
def get : SMap α → Str → Option α
  | [], _ => none
  | kv :: rest, k => if kv.1 = k then some kv.2 else get rest k

/-- `Map.get(k) ?? d`. -/
def getD (m : SMap α) (k : Str) (d : α) : α := (get m k).getD d

/-- `Map.set`: replace the value of the existing entry in place, or append a
fresh entry at the end. -/
def set : SMap α → Str → α → SMap α
  | [], k, v => [(k, v)]
  | kv :: rest, k, v => if kv.1 = k then (k, v) :: rest else kv :: set rest k v

/-- `Map.delete`: drop the entry with the given key. -/
def del (m : SMap α) (k : Str) : SMap α := m.filter (fun kv => !decide (kv.1 = k))


end SMap

/-- JavaScript `String.prototype.split` with a single-character separator:
`"".split(c) = [""]`, `"a/".split("/") = ["a", ""]`, etc. -/
def splitOnChar (c : Char) : Str → List Str
  | [] => [[]]
  | x :: xs =>
    if x = c then [] :: splitOnChar c xs
    else
      match splitOnChar c xs with
      | [] => [[x]]
      | h :: t => (x :: h) :: t

/-- `ReactiveFileMetadata` from the source: the record stored per key.
`lastModified` is the numeric timestamp of the JS `Date`. -/
structure ReactiveFileMetadata where
  key : Str
  lastModified : Nat
  size : Nat
deriving DecidableEq, Repr

/-- The observable side effects of the index operations: listener invocations
and pub/sub publishes. -/
inductive REvent where
  | metaNotify (path : Str) (listener : Nat) (file : Option ReactiveFileMetadata)
  | childNotify (path : Str) (listener : Nat) (children : SMap ReactiveFileMetadata)
  | publishUpdate (topic : Str) (file : ReactiveFileMetadata)
  | publishDelete (topic : Str) (key : Str)
deriving DecidableEq, Repr

/-- The children-snapshot comparison in `_updateChildListeners`. The source
compares `JSON.stringify([...a].sort())` with `JSON.stringify([...b].sort())`;
for maps with unique keys this string comparison succeeds exactly when the two
maps hold the same set of entries, which is what we model. -/
def snapshotEq (a b : SMap ReactiveFileMetadata) : Bool :=
  a.all (fun kv => decide (kv ∈ b)) && b.all (fun kv => decide (kv ∈ a))

/-- `makeTopicPubSubSafe`: the `while` loop accumulating whole segments.
`isFirst` is true exactly when `segmentCursor` is still `0`. -/
def reconstructLoop : List Str → Bool → Str → Str
  | [], _, reconstructed => reconstructed
  | seg :: rest, isFirst, reconstructed =>
    let proposedNext := (if isFirst then reconstructed else reconstructed ++ ['/']) ++ seg
    if proposedNext.length < 80 then reconstructLoop rest false proposedNext
    else reconstructed

/-- `makeTopicPubSubSafe` from the source: truncate a topic to at most 80
characters without splitting a path segment (unless the very first segment is
itself over the limit). -/
def makeTopicPubSubSafe (path : Str) : Str :=
  if path.length > 80 then
    let segments := splitOnChar '/' path
    if (segments.headD []).length > 80 then (segments.headD []).take 80
    else reconstructLoop segments true []
  else path

/-- `ensurePathEndsWithSlash` from the source. -/
def ensurePathEndsWithSlash (path : Str) : Str :=
  if path.getLast? = some '/' ∨ path.length = 0 then path else path ++ ['/']

/-- The state of a `ReactiveIndex`: the authoritative key → record mirror plus
its listener registries and error table. Listener callbacks are identified by
numeric tags. Loading/network-error listeners are not modelled; no claim
concerns them. -/
structure ReactiveIndex where
  files : SMap ReactiveFileMetadata
  globalPrefix : Str
  metadataListeners : SMap (List Nat)
  childrenListeners : SMap (List Nat)
  childrenLastNotified : SMap (SMap ReactiveFileMetadata)
  networkErrors : SMap Str
  loading : Bool
deriving DecidableEq, Repr

namespace ReactiveIndex

/-- `getMetadata`: `this.files.get(path) ?? null`. -/
def getMetadata (files : SMap ReactiveFileMetadata) (path : Str) :
    Option ReactiveFileMetadata :=
  SMap.get files path

/-- The path normalization at the head of `getChildren`: append `'/'` unless
the path is empty or already ends with it. -/
def normalizePath (path : Str) : Str :=
  if path ≠ [] ∧ path.getLast? ≠ some '/' then path ++ ['/'] else path

/-- One iteration of the `getChildren` loop: insert the entry re-keyed by its
suffix when its key starts with the (normalized) path and is not the path. -/
def childEntry (path : Str) (children : SMap ReactiveFileMetadata)
    (kv : Str × ReactiveFileMetadata) : SMap ReactiveFileMetadata :=
  if path.isPrefixOf kv.1 ∧ kv.1 ≠ path then
    SMap.set children (kv.1.drop path.length) kv.2
  else children

/-- `getChildren`: normalize the path to end with `'/'` (unless empty), then
collect every entry whose key starts with the normalized path and is not the
normalized path itself, re-keyed by the suffix. -/
def getChildren (files : SMap ReactiveFileMetadata) (path : Str) :
    SMap ReactiveFileMetadata :=
  files.foldl (childEntry (normalizePath path)) []

/-- The entry contributed by one file to `getChildren` (specification form of
`childEntry`, used to characterize the loop). -/
def childProject (path : Str) (kv : Str × ReactiveFileMetadata) :
    Option (Str × ReactiveFileMetadata) :=
  if path.isPrefixOf kv.1 ∧ kv.1 ≠ path then some (kv.1.drop path.length, kv.2)
  else none

/-- `setNetworkError` (the error-table mutation; the diff-then-notify callback
dispatch to network-error listeners is not modelled). -/
def setNetworkError (s : ReactiveIndex) (key value : Str) : ReactiveIndex :=
  { s with networkErrors := SMap.set s.networkErrors key value }

/-- `clearNetworkError` (the error-table mutation). -/
def clearNetworkError (s : ReactiveIndex) (key : Str) : ReactiveIndex :=
  { s with networkErrors := SMap.del s.networkErrors key }

/-- `addMetadataListener` / `addChildrenListener` registry update: create the
entry if missing, then push the callback. -/
def addListenerL (m : SMap (List Nat)) (path : Str) (id : Nat) : SMap (List Nat) :=
  SMap.set m path (SMap.getD m path [] ++ [id])

/-- `removeMetadataListener` / `removeChildrenListener` registry update:
splice out the first occurrence of the callback, a no-op when absent. -/
def removeListenerL (m : SMap (List Nat)) (path : Str) (id : Nat) : SMap (List Nat) :=
  match SMap.get m path with
  | none => m
  | some l => SMap.set m path (l.erase id)

def addMetadataListener (s : ReactiveIndex) (path : Str) (id : Nat) : ReactiveIndex :=
  { s with metadataListeners := addListenerL s.metadataListeners path id }

def removeMetadataListener (s : ReactiveIndex) (path : Str) (id : Nat) : ReactiveIndex :=
  { s with metadataListeners := removeListenerL s.metadataListeners path id }

def addChildrenListener (s : ReactiveIndex) (path : Str) (id : Nat) : ReactiveIndex :=
  { s with childrenListeners := addListenerL s.childrenListeners path id }

def removeChildrenListener (s : ReactiveIndex) (path : Str) (id : Nat) : ReactiveIndex :=
  { s with childrenListeners := removeListenerL s.childrenListeners path id }

/-- `_updateChildListeners`: for every registered children-listener path,
recompute the current children, notify the listeners only when the snapshot
differs from the last notified one, and always store the fresh snapshot. The
`childrenLastNotified` map is threaded through the iteration exactly as the
source mutates it in place. -/
def uclStep (files : SMap ReactiveFileMetadata)
    (acc : SMap (SMap ReactiveFileMetadata) × List REvent)
    (entry : Str × List Nat) : SMap (SMap ReactiveFileMetadata) × List REvent :=
  let children := getChildren files entry.1
  let evs :=
    if snapshotEq (SMap.getD acc.1 entry.1 []) children then []
    else entry.2.map (fun id => REvent.childNotify entry.1 id children)
  (SMap.set acc.1 entry.1 children, acc.2 ++ evs)

def updateChildListeners (s : ReactiveIndex) : ReactiveIndex × List REvent :=
  let folded := s.childrenListeners.foldl (uclStep s.files)
    (s.childrenLastNotified, ([] : List REvent))
  ({ s with childrenLastNotified := folded.1 }, folded.2)

/-- The update-merge guard of `_updateFileInIndex`: replace when no record is
stored or the stored record is strictly older. -/
def shouldReplace (s : ReactiveIndex) (file : ReactiveFileMetadata) : Prop :=
  match SMap.get s.files file.key with
  | none => True
  | some existingFile => existingFile.lastModified < file.lastModified

instance (s : ReactiveIndex) (file : ReactiveFileMetadata) :
    Decidable (shouldReplace s file) := by
  unfold shouldReplace
  cases SMap.get s.files file.key with
  | none => exact inferInstance
  | some existingFile => exact inferInstance

/-- `_updateFileInIndex`: last-writer-wins merge. When the guard holds the
record is stored, the metadata listeners for its key are invoked with it, and
the children listeners are re-diffed; otherwise the update is discarded
silently. -/
def updateFileInIndex (s : ReactiveIndex) (file : ReactiveFileMetadata) :
    ReactiveIndex × List REvent :=
  if shouldReplace s file then
    let s1 := { s with files := SMap.set s.files file.key file }
    let metaEvents :=
      (SMap.getD s1.metadataListeners file.key []).map
        (fun id => REvent.metaNotify file.key id (some file))
    let stepped := updateChildListeners s1
    (stepped.1, metaEvents ++ stepped.2)
  else (s, [])

/-- `_deleteFileInIndex`: remove the record, invoke the metadata listeners for
the key with "not found", and re-diff the children listeners. -/
def deleteFileInIndex (s : ReactiveIndex) (path : Str) : ReactiveIndex × List REvent :=
  let s1 := { s with files := SMap.del s.files path }
  let metaEvents :=
    (SMap.getD s1.metadataListeners path []).map (fun id => REvent.metaNotify path id none)
  let stepped := updateChildListeners s1
  (stepped.1, metaEvents ++ stepped.2)

/-- `upload(path, contents, onProgress)`: `Storage.put` followed, on success,
by clearing the "Upload" error and publishing the update event; on failure the
"Upload" error is recorded and the promise rejects. `contentsSize` is
`new Blob([contents]).size` and `now` is `(new Date()).getTime()`. The local
`files` map is never touched. -/
def upload (s : ReactiveIndex) (path : Str) (contentsSize : Nat) (now : Nat)
    (storeOk : Bool) : ReactiveIndex × List REvent × Except Unit Unit :=
  let fullPath := s.globalPrefix ++ path
  let updatedFile : ReactiveFileMetadata :=
    { key := fullPath, lastModified := now, size := contentsSize }
  let topic := makeTopicPubSubSafe (s2l "/UPDATE/" ++ fullPath)
  if storeOk then
    (clearNetworkError s (s2l "Upload"), [REvent.publishUpdate topic updatedFile],
      Except.ok ())
  else
    (setNetworkError s (s2l "Upload") (s2l "We got an error trying to upload a file!"),
      [], Except.error ())

/-- `delete(path)`: `Storage.remove` followed, on success, by clearing the
"Delete" error and publishing the delete event; on failure the "Delete" error
is recorded and the error is re-thrown. -/
def deleteOp (s : ReactiveIndex) (path : Str) (storeOk : Bool) :
    ReactiveIndex × List REvent × Except Unit Unit :=
  let fullPath := s.globalPrefix ++ path
  let topic := makeTopicPubSubSafe (s2l "/DELETE/" ++ fullPath)
  if storeOk then
    (clearNetworkError s (s2l "Delete"), [REvent.publishDelete topic fullPath],
      Except.ok ())
  else
    (setNetworkError s (s2l "Delete") (s2l "We got an error trying to delete a file!"),
      [], Except.error ())

/-- `fullRefresh()`: list the store; on success clear the "FullRefresh" error,
delete every local key absent from the listing and merge every listed record,
all through the two merge primitives; on failure record the "FullRefresh"
error. The returned promise resolves in both cases (`.catch` swallows the
error). `listing` is `none` when `Storage.list` fails. -/
def fullRefresh (s : ReactiveIndex) (listing : Option (List ReactiveFileMetadata)) :
    ReactiveIndex × List REvent × Except Unit Unit :=
  let s0 := { s with loading := true }
  match listing with
  | some result =>
    let s1 := clearNetworkError { s0 with loading := false } (s2l "FullRefresh")
    let newFiles := result.foldl (fun m r => SMap.set m r.key r) ([] : SMap ReactiveFileMetadata)
    let afterDeletes := s1.files.foldl
      (fun acc kv =>
        if (SMap.get newFiles kv.1).isNone then
          let stepped := deleteFileInIndex acc.1 kv.1
          (stepped.1, acc.2 ++ stepped.2)
        else acc)
      (s1, ([] : List REvent))
    let afterUpdates := newFiles.foldl
      (fun acc kv =>
        let stepped := updateFileInIndex acc.1 kv.2
        (stepped.1, acc.2 ++ stepped.2))
      afterDeletes
    (afterUpdates.1, afterUpdates.2, Except.ok ())
  | none =>
    let s1 := setNetworkError { s0 with loading := false } (s2l "FullRefresh")
      (s2l "We got an error trying to load the files! Attempting to reconnect...")
    (s1, [], Except.ok ())

end ReactiveIndex

/-- A JavaScript value stored in a `ReactiveJsonFile` mapping. `undef` is
JavaScript `undefined`; both `null` and `undef` satisfy `value == null`. -/
inductive JSVal where
  | null
  | undef
  | str (s : Str)
  | num (n : Int)
  | boolean (b : Bool)
deriving DecidableEq, Repr

/-- JavaScript `value == null` on an optional lookup result: `Map.get` of a
missing key yields `undefined`, and stored `null`/`undefined` also compare
loosely equal to `null`. -/
def jsEqNull : Option JSVal → Bool
  | none => true
  | some JSVal.null => true
  | some JSVal.undef => true
  | some _ => false

/-- The observable effects of the debounce layer: the upload performed when
the timer fires, followed by the change-listener invocations. -/
inductive JEvent where
  | upload (payload : SMap JSVal)
  | notifyChange
deriving DecidableEq, Repr

/-- The state of a `ReactiveJsonFile`: its path, the in-memory mapping, the
pending debounce deadline (the JS timer handle plus its due time), and the
number of in-flight background downloads started by `pathChanged`. -/
structure ReactiveJsonFile where
  path : Str
  values : SMap JSVal
  pendingTimeout : Option Nat
  pendingFetches : Nat
deriving DecidableEq, Repr

namespace ReactiveJsonFile

/-- `pathChanged()`: when the backing file exists in the owning cursor's
(fresh) children map, start a background download whose completion will merge
the parsed keys (modelled by incrementing `pendingFetches`); otherwise clear
the in-memory mapping synchronously. -/
def pathChanged (children : SMap ReactiveFileMetadata) (f : ReactiveJsonFile) :
    ReactiveJsonFile :=
  if (SMap.get children f.path).isSome then
    { f with pendingFetches := f.pendingFetches + 1 }
  else { f with values := [] }

/-- `getAttribute(key, defaultValue)`: return the default when the stored
value compares loosely equal to `null` (absent, `null`, or `undefined`). -/
def getAttribute (f : ReactiveJsonFile) (key : Str) (defaultValue : JSVal) : JSVal :=
  let value := SMap.get f.values key
  if jsEqNull value then defaultValue else value.getD JSVal.undef

/-- `restartUploadTimer()`: clear any pending timer and schedule a new upload
500ms from `now`. -/
def restartUploadTimer (f : ReactiveJsonFile) (now : Nat) : ReactiveJsonFile :=
  { f with pendingTimeout := some (now + 500) }

/-- `setAttribute(key, value)`: store the value and restart the debounce
timer. `now` is the wall-clock time of the call. -/
def setAttribute (f : ReactiveJsonFile) (now : Nat) (key : Str) (value : JSVal) :
    ReactiveJsonFile :=
  restartUploadTimer { f with values := SMap.set f.values key value } now

/-- The debounce timer firing uninterrupted: serialize the full in-memory
mapping, upload it, then (when the upload resolves) invoke the change
listeners; the timer handle is cleared. -/
def fireTimer (f : ReactiveJsonFile) : ReactiveJsonFile × List JEvent :=
  ({ f with pendingTimeout := none }, [JEvent.upload f.values, JEvent.notifyChange])

/-- Single-threaded scheduler for a burst of `setAttribute` calls: events are
`(time, key, value)` triples in time order. Before each call any timer due at
or before that time fires; after the last call the remaining timer (if any)
runs to completion. -/
def runSets : ReactiveJsonFile → List (Nat × Str × JSVal) → ReactiveJsonFile × List JEvent
  | f, [] =>
    match f.pendingTimeout with
    | some _ => fireTimer f
    | none => (f, [])
  | f, (t, k, v) :: rest =>
    let fired :=
      match f.pendingTimeout with
      | some d => if d ≤ t then fireTimer f else (f, [])
      | none => (f, [])
    let stepped := runSets (setAttribute fired.1 t k v) rest
    (stepped.1, fired.2 ++ stepped.2)

end ReactiveJsonFile

/-- The state of a `ReactiveCursor`: the path it points at, the backing index
(held by value in the embedding), the cached metadata/children snapshots and
the owned `ReactiveJsonFile` documents. `id` tags this cursor's two listener
callbacks (`_metadataListener` / `_onChildrenListener`) in the index's
registries. -/
structure ReactiveCursor where
  id : Nat
  path : Str
  index : ReactiveIndex
  metadata : Option ReactiveFileMetadata
  children : SMap ReactiveFileMetadata
  jsonFiles : SMap ReactiveJsonFile
deriving DecidableEq, Repr

namespace ReactiveCursor

/-- `setPath(path)`: no-op when unchanged; otherwise unregister the cursor's
listeners from the current (path, index) pair, swap the path, re-derive the
cached metadata and children, propagate `pathChanged` to every owned
JsonDocument, and re-register the listeners at the new path. -/
def setPath (c : ReactiveCursor) (path : Str) : ReactiveCursor :=
  if path = c.path then c
  else
    let idx := (c.index.removeMetadataListener c.path c.id).removeChildrenListener c.path c.id
    let metadata := ReactiveIndex.getMetadata idx.files path
    let children := ReactiveIndex.getChildren idx.files path
    let jsonFiles := c.jsonFiles.map
      (fun kv => (kv.1, ReactiveJsonFile.pathChanged children kv.2))
    let idx2 := (idx.addMetadataListener path c.id).addChildrenListener path c.id
    { c with path := path, index := idx2, metadata := metadata, children := children,
             jsonFiles := jsonFiles }

/-- `setIndex(index)`: no-op when unchanged; otherwise unregister the cursor's
listeners from the old index, swap the index, re-derive the cached metadata
and children from the new index, and re-register the listeners on it. (The
owned JsonDocuments are NOT re-pointed: unlike `setPath`, the source never
calls `pathChanged` here.) Returns the new cursor and the old index as left
behind after unregistration. -/
def setIndex (c : ReactiveCursor) (index : ReactiveIndex) :
    ReactiveCursor × ReactiveIndex :=
  if index = c.index then (c, c.index)
  else
    let old := (c.index.removeMetadataListener c.path c.id).removeChildrenListener c.path c.id
    let metadata := ReactiveIndex.getMetadata index.files c.path
    let children := ReactiveIndex.getChildren index.files c.path
    let idx2 := (index.addMetadataListener c.path c.id).addChildrenListener c.path c.id
    ({ c with index := idx2, metadata := metadata, children := children }, old)

/-- `getImmediateChildFolders(of)`: group the cached children lying under `of`
(by raw string prefix, skipping the key equal to `of` itself) by the first
`'/'`-segment of the remainder after stripping `of`, summing sizes and taking
the latest modification time. The source's final `[...folders.values()].sort()`
compares stringified objects, which are all equal; we return the folders map
itself, whose entry set is what the claims concern. One loop iteration is
`gicfStep`. -/
def gicfStep (of : Str) (folders : SMap ReactiveFileMetadata)
    (kv : Str × ReactiveFileMetadata) : SMap ReactiveFileMetadata :=
  if ¬ (of.isPrefixOf kv.1) ∨ kv.1 = of then folders
  else
    let relativePath := kv.1.drop of.length
    let part0 := (splitOnChar '/' relativePath).headD []
    match SMap.get folders part0 with
    | none =>
      SMap.set folders part0
        { key := part0, lastModified := kv.2.lastModified, size := kv.2.size }
    | some existingFolder =>
      SMap.set folders part0
        { key := part0,
          lastModified :=
            if existingFolder.lastModified < kv.2.lastModified then kv.2.lastModified
            else existingFolder.lastModified,
          size := kv.2.size + existingFolder.size }

def getImmediateChildFolders (children : SMap ReactiveFileMetadata) (of : Str) :
    SMap ReactiveFileMetadata :=
  children.foldl (gicfStep of) []

end ReactiveCursor

/-! ## Concrete fixtures used by witnesses and counterexamples -/

/-- An index with no files, listeners or errors. -/
def emptyIndex : ReactiveIndex :=
  { files := [], globalPrefix := [], metadataListeners := [], childrenListeners := [],
    childrenLastNotified := [], networkErrors := [], loading := true }

/-- A JSON document with an empty mapping. -/
def jf0 : ReactiveJsonFile :=
  { path := s2l "doc.json", values := [], pendingTimeout := none, pendingFetches := 0 }

/-- A JSON document storing a non-null value under "k". -/
def jf1 : ReactiveJsonFile :=
  { path := s2l "doc.json", values := [(s2l "k", JSVal.num 3)], pendingTimeout := none,
    pendingFetches := 0 }

/-- Bulk application of update events through `_updateFileInIndex`, as the
pub/sub subscription or a listing replay would deliver them. -/
def ReactiveIndex.applyUpdates (s : ReactiveIndex) (l : List ReactiveFileMetadata) :
    ReactiveIndex :=
  l.foldl (fun s r => (ReactiveIndex.updateFileInIndex s r).1) s

/-- The running last-writer-wins winner over a list of updates, starting from
a stored record. -/
def maxRec (cur : ReactiveFileMetadata) (l : List ReactiveFileMetadata) :
    ReactiveFileMetadata :=
  l.foldl (fun b r => if b.lastModified < r.lastModified then r else b) cur

/-- Fixtures for the last-writer-wins witness: three updates for one key with
distinct timestamps, in two different delivery orders. -/
def recA : ReactiveFileMetadata := { key := s2l "f", lastModified := 1, size := 10 }

def recB : ReactiveFileMetadata := { key := s2l "f", lastModified := 2, size := 20 }

def recC : ReactiveFileMetadata := { key := s2l "f", lastModified := 3, size := 30 }

def updList1 : List ReactiveFileMetadata := [recA, recC, recB]

def updList2 : List ReactiveFileMetadata := [recB, recA, recC]

/-- Fixtures for the children-derivation claim: the spec's three-file example. -/
def recX : ReactiveFileMetadata := { key := s2l "a/x.txt", lastModified := 1, size := 4 }

def recY : ReactiveFileMetadata := { key := s2l "a/y.txt", lastModified := 2, size := 5 }

def recBt : ReactiveFileMetadata := { key := s2l "b.txt", lastModified := 3, size := 6 }

def files3 : SMap ReactiveFileMetadata :=
  [(s2l "a/x.txt", recX), (s2l "a/y.txt", recY), (s2l "b.txt", recBt)]

/-- Join path segments with `'/'` separators (the inverse of `splitOnChar`):
the shape of every value `makeTopicPubSubSafe` can build without splitting a
segment. -/
def joinSegs : List Str → Str
  | [] => []
  | s :: rest =>
    match rest with
    | [] => s
    | _ :: _ => s ++ '/' :: joinSegs rest

/-- A slash-free 100-character path. -/
def path100 : Str := s2l "aaaaaaaaaaaaaaaaaaaaaaaaaaaaaaaaaaaaaaaaaaaaaaaaaaaaaaaaaaaaaaaaaaaaaaaaaaaaaaaaaaaaaaaaaaaaaaaaaaaa"

/-- A path of eight 10-character segments (87 characters in all). -/
def path87 : Str := s2l "bbbbbbbbbb/bbbbbbbbbb/bbbbbbbbbb/bbbbbbbbbb/bbbbbbbbbb/bbbbbbbbbb/bbbbbbbbbb/bbbbbbbbbb"

/-- The children contributing to the virtual folder named `g` under prefix
`of`: keys that start with `of` as a raw string, differ from `of`, and whose
remainder after stripping `of` has first "/"-segment `g`. -/
def folderContributors (children : SMap ReactiveFileMetadata) (of g : Str) :
    List ReactiveFileMetadata :=
  (children.filter (fun kv =>
    decide (of.isPrefixOf kv.1 = true ∧ kv.1 ≠ of ∧
      (splitOnChar '/' (kv.1.drop of.length)).headD [] = g))).map Prod.snd

/-- The aggregation `getImmediateChildFolders` performs on one contributing
file: first contributor seeds the folder, later ones add sizes and take the
later modification time. -/
def mergeFolderStep (g : Str) (acc : Option ReactiveFileMetadata)
    (file : ReactiveFileMetadata) : Option ReactiveFileMetadata :=
  match acc with
  | none => some { key := g, lastModified := file.lastModified, size := file.size }
  | some existingFolder =>
    some
      { key := g,
        lastModified :=
          if existingFolder.lastModified < file.lastModified then file.lastModified
          else existingFolder.lastModified,
        size := file.size + existingFolder.size }

/-- `mergeFolderStep` folded over a contributor list. -/
def mergeFolderList (g : Str) (o : Option ReactiveFileMetadata)
    (l : List ReactiveFileMetadata) : Option ReactiveFileMetadata :=
  l.foldl (mergeFolderStep g) o

/-- Fixture for the partial-segment grouping instance: key "ab/x" under
prefix "a". -/
def recAbx : ReactiveFileMetadata := { key := s2l "ab/x", lastModified := 7, size := 9 }

/-- The number of children-listener invocations for path `p` in an event
list. -/
def countChildNotify (evs : List REvent) (p : Str) : Nat :=
  (evs.filter (fun e => match e with
    | REvent.childNotify q _ _ => decide (q = p)
    | _ => false)).length

/-- Fixtures for the listener-dedup claim: an index holding "a/x.txt" with a
children listener (tag 0) registered on "a" whose last-notified snapshot is
current. -/
def recAx : ReactiveFileMetadata := { key := s2l "a/x.txt", lastModified := 5, size := 10 }

/-- The same key with a strictly newer timestamp and a different size. -/
def recAx2 : ReactiveFileMetadata := { key := s2l "a/x.txt", lastModified := 6, size := 11 }

/-- The same key with an identical timestamp but a different size. -/
def recAx3 : ReactiveFileMetadata := { key := s2l "a/x.txt", lastModified := 5, size := 11 }

def idx4 : ReactiveIndex :=
  { files := [(s2l "a/x.txt", recAx)], globalPrefix := [], metadataListeners := [],
    childrenListeners := [(s2l "a", [0])],
    childrenLastNotified := [(s2l "a", [(s2l "x.txt", recAx)])],
    networkErrors := [], loading := false }

/-- How many times the listener tagged `id` is registered at `path` in a
listener registry. -/
def countL (m : SMap (List Nat)) (path : Str) (id : Nat) : Nat :=
  (SMap.getD m path []).count id

/-- Fixtures for the re-pointing claim: a cursor (listener tag 0) pointing at
"p" in an index holding "p/file.json", owning one JSON document with a loaded
value. -/
def jfC3 : ReactiveJsonFile :=
  { path := s2l "file.json", values := [(s2l "k", JSVal.str (s2l "v"))],
    pendingTimeout := none, pendingFetches := 0 }

def recPf : ReactiveFileMetadata :=
  { key := s2l "p/file.json", lastModified := 1, size := 2 }

def idxC3 : ReactiveIndex :=
  { files := [(s2l "p/file.json", recPf)], globalPrefix := [],
    metadataListeners := [(s2l "p", [0])], childrenListeners := [(s2l "p", [0])],
    childrenLastNotified := [], networkErrors := [], loading := false }

def curC3 : ReactiveCursor :=
  { id := 0, path := s2l "p", index := idxC3,
    metadata := ReactiveIndex.getMetadata idxC3.files (s2l "p"),
    children := ReactiveIndex.getChildren idxC3.files (s2l "p"),
    jsonFiles := [(s2l "file.json", jfC3)] }

/-- The net effect of a burst of `setAttribute` calls on the in-memory
mapping. -/
def applySets (vals : SMap JSVal) (events : List (Nat × Str × JSVal)) : SMap JSVal :=
  events.foldl (fun vs e => SMap.set vs e.2.1 e.2.2) vals

/-- `burstB d events`: the timestamped writes are a debounce burst — the first
one arrives strictly before the pending deadline `d`, and each subsequent one
strictly within 500ms of its predecessor. -/
def burstB : Nat → List (Nat × Str × JSVal) → Bool
  | _, [] => true
  | d, e :: rest => decide (e.1 < d) && burstB (e.1 + 500) rest

/-- Fixture for the debounce witness: four further writes, each within 500ms
of the previous one. -/
def evsC7rest : List (Nat × Str × JSVal) :=
  [(100, s2l "a", JSVal.num 2), (200, s2l "b", JSVal.num 3),
   (300, s2l "a", JSVal.num 4), (400, s2l "b", JSVal.num 5)]

/-! ## Lemmas -/

namespace SMap

variable {α : Type}

theorem get_set_self (m : SMap α) (k : Str) (v : α) : (set m k v).get k = some v := by
  induction m with
  | nil => simp [set, get]
  | cons kv rest ih =>
    by_cases h : kv.1 = k <;> simp [set, get, h, ih]

theorem get_set_ne (m : SMap α) (k k' : Str) (v : α) (h : k' ≠ k) :
    (set m k v).get k' = m.get k' := by
  induction m with
  | nil => simp [set, get, Ne.symm h]
  | cons kv rest ih =>
    by_cases hk : kv.1 = k
    · simp [set, get, hk, Ne.symm h]
    · simp [set, get, hk, ih]

theorem get_del_self (m : SMap α) (k : Str) : (del m k).get k = none := by
  induction m with
  | nil => simp [del, get]
  | cons kv rest ih =>
    by_cases h : kv.1 = k <;> simp_all [del, get, List.filter_cons]

theorem get_del_ne (m : SMap α) (k k' : Str) (h : k' ≠ k) :
    (del m k).get k' = m.get k' := by
  induction m with
  | nil => simp [del, get]
  | cons kv rest ih =>
    by_cases hk : kv.1 = k
    · have : kv.1 ≠ k' := by rw [hk]; exact fun h' => h h'.symm
      simp_all [del, get, List.filter_cons]
    · by_cases hk' : kv.1 = k' <;> simp_all [del, get, List.filter_cons]

theorem getD_set_self (m : SMap α) (k : Str) (v d : α) : (set m k v).getD k d = v := by
  simp [getD, get_set_self]

theorem getD_set_ne (m : SMap α) (k k' : Str) (v d : α) (h : k' ≠ k) :
    (set m k v).getD k' d = m.getD k' d := by
  simp [getD, get_set_ne m k k' v h]

theorem set_of_get_none (m : SMap α) (k : Str) (v : α) (h : m.get k = none) :
    set m k v = m ++ [(k, v)] := by
  induction m with
  | nil => simp [set]
  | cons kv rest ih =>
    by_cases hk : kv.1 = k
    · simp [get, hk] at h
    · simp [get, hk] at h
      simp [set, hk, ih h]

theorem get_eq_none_of_not_mem_keys (m : SMap α) (k : Str) (h : k ∉ m.map Prod.fst) :
    m.get k = none := by
  induction m with
  | nil => simp [get]
  | cons kv rest ih =>
    simp only [List.map_cons, List.mem_cons] at h
    push_neg at h
    simp [get, Ne.symm h.1, ih h.2]

end SMap

theorem splitOnChar_ne_nil (c : Char) (s : Str) : splitOnChar c s ≠ [] := by
  induction s with
  | nil => simp [splitOnChar]
  | cons x xs ih =>
    by_cases h : x = c
    · simp [splitOnChar, h]
    · simp only [splitOnChar, if_neg h]
      cases hs : splitOnChar c xs <;> simp

theorem ReactiveIndex.updateChildListeners_files (s : ReactiveIndex) :
    (ReactiveIndex.updateChildListeners s).1.files = s.files := rfl

theorem ReactiveIndex.updateFileInIndex_files_of_replace (s : ReactiveIndex)
    (file : ReactiveFileMetadata) (h : ReactiveIndex.shouldReplace s file) :
    (ReactiveIndex.updateFileInIndex s file).1.files = SMap.set s.files file.key file := by
  simp only [ReactiveIndex.updateFileInIndex, if_pos h]
  exact ReactiveIndex.updateChildListeners_files _

theorem ReactiveIndex.updateFileInIndex_of_stale (s : ReactiveIndex)
    (file : ReactiveFileMetadata) (h : ¬ ReactiveIndex.shouldReplace s file) :
    ReactiveIndex.updateFileInIndex s file = (s, []) := by
  simp only [ReactiveIndex.updateFileInIndex, if_neg h]

theorem maxRec_mem (cur : ReactiveFileMetadata) (l : List ReactiveFileMetadata) :
    maxRec cur l = cur ∨ maxRec cur l ∈ l := by
  induction l generalizing cur with
  | nil => simp [maxRec]
  | cons r rest ih =>
    simp only [maxRec, List.foldl_cons]
    rcases ih (if cur.lastModified < r.lastModified then r else cur) with h | h
    · by_cases hc : cur.lastModified < r.lastModified
      · right; rw [maxRec] at h; simp [hc] at h; simp [maxRec, hc, h]
      · left; rw [maxRec] at h; simp [hc] at h; simp [maxRec, hc, h]
    · right
      simp only [maxRec] at h ⊢
      exact List.mem_cons_of_mem _ h

theorem le_maxRec (cur : ReactiveFileMetadata) (l : List ReactiveFileMetadata) :
    cur.lastModified ≤ (maxRec cur l).lastModified ∧
      ∀ r ∈ l, r.lastModified ≤ (maxRec cur l).lastModified := by
  induction l generalizing cur with
  | nil => simp [maxRec]
  | cons r rest ih =>
    simp only [maxRec, List.foldl_cons]
    have step := ih (if cur.lastModified < r.lastModified then r else cur)
    rw [maxRec] at step
    constructor
    · refine le_trans ?_ step.1
      by_cases hc : cur.lastModified < r.lastModified <;> simp [hc] <;> omega
    · intro r2 hr2
      rcases List.mem_cons.mp hr2 with h | h
      · subst h
        refine le_trans ?_ step.1
        by_cases hc : cur.lastModified < r2.lastModified <;> simp [hc] <;> omega
      · exact step.2 r2 h

theorem applyUpdates_get_single_key (k : Str) (l : List ReactiveFileMetadata) :
    ∀ (s : ReactiveIndex) (cur : ReactiveFileMetadata),
      (∀ r ∈ l, r.key = k) → SMap.get s.files k = some cur →
      SMap.get (ReactiveIndex.applyUpdates s l).files k = some (maxRec cur l) := by
  induction l with
  | nil =>
    intro s cur _ hcur
    simpa [ReactiveIndex.applyUpdates, maxRec] using hcur
  | cons r rest ih =>
    intro s cur hk hcur
    have hrk : r.key = k := hk r (List.mem_cons_self r rest)
    have hget : SMap.get s.files r.key = some cur := by rw [hrk]; exact hcur
    by_cases hrep : ReactiveIndex.shouldReplace s r
    · have hlt : cur.lastModified < r.lastModified := by
        unfold ReactiveIndex.shouldReplace at hrep
        rw [hget] at hrep
        exact hrep
      have hfiles := ReactiveIndex.updateFileInIndex_files_of_replace s r hrep
      have hgetnew :
          SMap.get (ReactiveIndex.updateFileInIndex s r).1.files k = some r := by
        rw [hfiles, hrk, SMap.get_set_self]
      have := ih (ReactiveIndex.updateFileInIndex s r).1 r
        (fun r2 hr2 => hk r2 (List.mem_cons_of_mem _ hr2)) hgetnew
      simpa [ReactiveIndex.applyUpdates, maxRec, hlt] using this
    · have hnlt : ¬ cur.lastModified < r.lastModified := by
        unfold ReactiveIndex.shouldReplace at hrep
        rw [hget] at hrep
        exact hrep
      have hstale := ReactiveIndex.updateFileInIndex_of_stale s r hrep
      have := ih s cur (fun r2 hr2 => hk r2 (List.mem_cons_of_mem _ hr2)) hcur
      simpa [ReactiveIndex.applyUpdates, maxRec, hnlt, hstale] using this

theorem applyUpdates_max (s : ReactiveIndex) (k : Str)
    (l : List ReactiveFileMetadata) (hne : l ≠ []) (hk : ∀ r ∈ l, r.key = k)
    (hnone : SMap.get s.files k = none) :
    ∃ r, r ∈ l ∧ SMap.get (ReactiveIndex.applyUpdates s l).files k = some r ∧
      ∀ r2 ∈ l, r2.lastModified ≤ r.lastModified := by
  cases l with
  | nil => exact absurd rfl hne
  | cons r0 rest =>
    have hr0k : r0.key = k := hk r0 (List.mem_cons_self r0 rest)
    have hrep : ReactiveIndex.shouldReplace s r0 := by
      unfold ReactiveIndex.shouldReplace
      rw [hr0k, hnone]
      trivial
    have hfiles := ReactiveIndex.updateFileInIndex_files_of_replace s r0 hrep
    have hget0 : SMap.get (ReactiveIndex.updateFileInIndex s r0).1.files k = some r0 := by
      rw [hfiles, hr0k, SMap.get_set_self]
    have hmax := applyUpdates_get_single_key k rest
      (ReactiveIndex.updateFileInIndex s r0).1 r0
      (fun r2 hr2 => hk r2 (List.mem_cons_of_mem _ hr2)) hget0
    refine ⟨maxRec r0 rest, ?_, ?_, ?_⟩
    · rcases maxRec_mem r0 rest with h | h
      · rw [h]; exact List.mem_cons_self r0 rest
      · exact List.mem_cons_of_mem _ h
    · simpa [ReactiveIndex.applyUpdates] using hmax
    · intro r2 hr2
      rcases List.mem_cons.mp hr2 with h | h
      · subst h; exact (le_maxRec r2 rest).1
      · exact (le_maxRec r0 rest).2 r2 h

theorem eq_of_pairwise_ne_lastModified (l : List ReactiveFileMetadata)
    (hpw : l.Pairwise (fun a b => a.lastModified ≠ b.lastModified))
    (r r2 : ReactiveFileMetadata) (hr : r ∈ l) (hr2 : r2 ∈ l)
    (heq : r.lastModified = r2.lastModified) : r = r2 := by
  induction l with
  | nil => cases hr
  | cons a rest ih =>
    have hpw2 := List.pairwise_cons.mp hpw
    rcases List.mem_cons.mp hr with h | h <;> rcases List.mem_cons.mp hr2 with h2 | h2
    · rw [h, h2]
    · exact absurd heq (h ▸ hpw2.1 r2 h2)
    · exact absurd heq.symm (h2 ▸ hpw2.1 r h)
    · exact ih hpw2.2 h h2

theorem prefix_drop (q k : Str) (h : q.isPrefixOf k = true) :
    q ++ k.drop q.length = k := by
  obtain ⟨t, ht⟩ := List.isPrefixOf_iff_prefix.mp h
  rw [← ht, List.drop_left]

theorem isPrefixOf_append (q t : Str) : q.isPrefixOf (q ++ t) = true :=
  List.isPrefixOf_iff_prefix.mpr ⟨t, rfl⟩

theorem drop_ne_of_prefix_ne (q k1 k2 : Str) (h1 : q.isPrefixOf k1 = true)
    (h2 : q.isPrefixOf k2 = true) (hne : k1 ≠ k2) :
    k1.drop q.length ≠ k2.drop q.length := by
  intro h
  exact hne (by rw [← prefix_drop q k1 h1, ← prefix_drop q k2 h2, h])

theorem foldl_childEntry_eq (q : Str) :
    ∀ (files : SMap ReactiveFileMetadata) (acc : SMap ReactiveFileMetadata),
      (files.map Prod.fst).Nodup →
      (∀ kv ∈ files, q.isPrefixOf kv.1 = true ∧ kv.1 ≠ q →
        kv.1.drop q.length ∉ acc.map Prod.fst) →
      files.foldl (ReactiveIndex.childEntry q) acc =
        acc ++ files.filterMap (ReactiveIndex.childProject q) := by
  intro files
  induction files with
  | nil => intro acc _ _; simp
  | cons kv rest ih =>
    intro acc hnd hfresh
    have hndrest : (rest.map Prod.fst).Nodup := (List.nodup_cons.mp hnd).2
    have hhead : kv.1 ∉ rest.map Prod.fst := (List.nodup_cons.mp hnd).1
    by_cases hg : q.isPrefixOf kv.1 ∧ kv.1 ≠ q
    · have hgetnone : SMap.get acc (kv.1.drop q.length) = none :=
        SMap.get_eq_none_of_not_mem_keys acc _
          (hfresh kv (List.mem_cons_self kv rest) hg)
      have hstep : ReactiveIndex.childEntry q acc kv = acc ++ [(kv.1.drop q.length, kv.2)] := by
        rw [ReactiveIndex.childEntry, if_pos hg]
        exact SMap.set_of_get_none acc _ kv.2 hgetnone
      have hfresh2 : ∀ kv2 ∈ rest, q.isPrefixOf kv2.1 = true ∧ kv2.1 ≠ q →
          kv2.1.drop q.length ∉ (acc ++ [(kv.1.drop q.length, kv.2)]).map Prod.fst := by
        intro kv2 hkv2 hg2
        simp only [List.map_append, List.mem_append, List.map_cons, List.map_nil,
          List.mem_singleton, List.mem_cons]
        push_neg
        refine ⟨hfresh kv2 (List.mem_cons_of_mem _ hkv2) hg2, ?_⟩
        have hkne : kv2.1 ≠ kv.1 := by
          intro h
          exact hhead (h ▸ List.mem_map_of_mem Prod.fst hkv2)
        simp only [List.not_mem_nil, not_false_iff, and_true]
        exact drop_ne_of_prefix_ne q kv2.1 kv.1 hg2.1 hg.1 hkne
      have := ih (acc ++ [(kv.1.drop q.length, kv.2)]) hndrest hfresh2
      simp only [List.foldl_cons, hstep, this, List.filterMap_cons,
        ReactiveIndex.childProject, if_pos hg, List.append_assoc, List.singleton_append]
    · have hstep : ReactiveIndex.childEntry q acc kv = acc := by
        rw [ReactiveIndex.childEntry, if_neg hg]
      have := ih acc hndrest
        (fun kv2 hkv2 hg2 => hfresh kv2 (List.mem_cons_of_mem _ hkv2) hg2)
      simp only [List.foldl_cons, hstep, this, List.filterMap_cons,
        ReactiveIndex.childProject, if_neg hg]

theorem getChildren_eq_filterMap (files : SMap ReactiveFileMetadata) (path : Str)
    (hnd : (files.map Prod.fst).Nodup) :
    ReactiveIndex.getChildren files path =
      files.filterMap (ReactiveIndex.childProject (ReactiveIndex.normalizePath path)) := by
  have := foldl_childEntry_eq (ReactiveIndex.normalizePath path) files [] hnd
    (by intro kv _ _; simp)
  simpa [ReactiveIndex.getChildren] using this

theorem filterMap_childProject_get (q : Str) (files : SMap ReactiveFileMetadata)
    (s : Str) :
    SMap.get (files.filterMap (ReactiveIndex.childProject q)) s =
      if s = [] then none else SMap.get files (q ++ s) := by
  induction files with
  | nil => by_cases hs : s = [] <;> simp [SMap.get, hs]
  | cons kv rest ih =>
    by_cases hg : q.isPrefixOf kv.1 ∧ kv.1 ≠ q
    · have hdec : q ++ kv.1.drop q.length = kv.1 := prefix_drop q kv.1 hg.1
      have hdne : kv.1.drop q.length ≠ [] := by
        intro h
        exact hg.2 (by rw [← hdec, h, List.append_nil])
      by_cases hds : kv.1.drop q.length = s
      · have hsne : s ≠ [] := hds ▸ hdne
        have hkey : kv.1 = q ++ s := by rw [← hdec, hds]
        simp [List.filterMap_cons, ReactiveIndex.childProject, if_pos hg, SMap.get,
          hds, hsne, hkey]
      · by_cases hs : s = []
        · simp only [List.filterMap_cons, ReactiveIndex.childProject, if_pos hg]
          simp only [SMap.get, if_neg hds, ih, if_pos hs]
        · have hkne : kv.1 ≠ q ++ s := by
            intro h
            exact hds (by rw [h, List.drop_left])
          simp only [List.filterMap_cons, ReactiveIndex.childProject, if_pos hg]
          simp only [SMap.get, if_neg hds, ih, if_neg hs, if_neg hkne]
    · by_cases hs : s = []
      · simp only [List.filterMap_cons, ReactiveIndex.childProject, if_neg hg, ih,
          if_pos hs]
      · have hkne : kv.1 ≠ q ++ s := by
          intro h
          refine hg ⟨h ▸ isPrefixOf_append q s, ?_⟩
          rw [h]
          intro h2
          have := congrArg (List.drop q.length) h2
          rw [List.drop_left, List.drop_length] at this
          exact hs this
        simp only [List.filterMap_cons, ReactiveIndex.childProject, if_neg hg, ih,
          if_neg hs]
        simp [SMap.get, hkne]

theorem getChildren_get (files : SMap ReactiveFileMetadata) (path s : Str)
    (hnd : (files.map Prod.fst).Nodup) :
    SMap.get (ReactiveIndex.getChildren files path) s =
      if s = [] then none
      else SMap.get files (ReactiveIndex.normalizePath path ++ s) := by
  rw [getChildren_eq_filterMap files path hnd, filterMap_childProject_get]

theorem joinSegs_nil : joinSegs [] = [] := rfl

theorem joinSegs_singleton (s : Str) : joinSegs [s] = s := rfl

theorem joinSegs_cons2 (s t : Str) (r : List Str) :
    joinSegs (s :: t :: r) = s ++ '/' :: joinSegs (t :: r) := rfl

theorem joinSegs_append_singleton (xs : List Str) (y : Str) (h : xs ≠ []) :
    joinSegs (xs ++ [y]) = joinSegs xs ++ '/' :: y := by
  induction xs with
  | nil => exact absurd rfl h
  | cons a t ih =>
    cases t with
    | nil => simp [joinSegs]
    | cons b t2 =>
      have hne : (b :: t2 : List Str) ≠ [] := List.cons_ne_nil b t2
      calc joinSegs ((a :: b :: t2) ++ [y])
          = a ++ '/' :: joinSegs ((b :: t2) ++ [y]) := by
            simp [List.cons_append, joinSegs_cons2]
        _ = a ++ '/' :: (joinSegs (b :: t2) ++ '/' :: y) := by rw [ih hne]
        _ = (a ++ '/' :: joinSegs (b :: t2)) ++ '/' :: y := by simp

theorem joinSegs_length_le_append (xs ys : List Str) :
    (joinSegs xs).length ≤ (joinSegs (xs ++ ys)).length := by
  induction xs with
  | nil => simp [joinSegs]
  | cons a t ih =>
    cases t with
    | nil =>
      cases ys with
      | nil => simp
      | cons y ys2 => simp [joinSegs_singleton, joinSegs_cons2]
    | cons b t2 =>
      have h2 := ih
      simp only [List.cons_append, joinSegs_cons2] at h2 ⊢
      simp only [List.length_append, List.length_cons]
      omega

theorem reconstructLoop_go (rest : List Str) :
    ∀ (pre : List Str), (joinSegs pre).length < 80 →
      ∃ mid, mid <+: rest ∧
        reconstructLoop rest pre.isEmpty (joinSegs pre) = joinSegs (pre ++ mid) ∧
        (joinSegs (pre ++ mid)).length < 80 ∧
        (mid ≠ rest → ∃ nxt rest2, rest = mid ++ nxt :: rest2 ∧
          80 ≤ (joinSegs (pre ++ mid ++ [nxt])).length) := by
  induction rest with
  | nil =>
    intro pre hfit
    exact ⟨[], List.prefix_refl [], by simp [reconstructLoop], by simpa using hfit,
      fun h => absurd rfl h⟩
  | cons seg rest2 ih =>
    intro pre hfit
    have hprop : ((if pre.isEmpty = true then joinSegs pre else joinSegs pre ++ ['/']) ++ seg)
        = joinSegs (pre ++ [seg]) := by
      cases pre with
      | nil => simp [joinSegs]
      | cons a t =>
        rw [joinSegs_append_singleton (a :: t) seg (List.cons_ne_nil a t)]
        simp
    by_cases hlt : (joinSegs (pre ++ [seg])).length < 80
    · have hne2 : (pre ++ [seg] : List Str) ≠ [] := by simp
      have hemp : (pre ++ [seg]).isEmpty = false := by
        cases pre <;> simp
      obtain ⟨mid2, hpre2, hrun2, hfit2, hbrk2⟩ := ih (pre ++ [seg]) hlt
      refine ⟨seg :: mid2, ?_, ?_, ?_, ?_⟩
      · exact (List.prefix_cons_inj seg).mpr hpre2
      · rw [reconstructLoop]
        simp only [hprop, if_pos hlt]
        rw [← hemp, hrun2]
        simp
      · simpa using hfit2
      · intro hne
        have hne3 : mid2 ≠ rest2 := fun h => hne (by rw [h])
        obtain ⟨nxt, rest3, hsplit, hlen⟩ := hbrk2 hne3
        refine ⟨nxt, rest3, by simp [hsplit], ?_⟩
        have : pre ++ [seg] ++ mid2 ++ [nxt] = pre ++ (seg :: mid2) ++ [nxt] := by simp
        rw [← this]
        exact hlen
    · refine ⟨[], List.nil_prefix, ?_, by simpa using hfit, ?_⟩
      · rw [reconstructLoop]
        simp only [hprop, if_neg hlt]
        simp
      · intro _
        refine ⟨seg, rest2, by simp, ?_⟩
        simp only [List.append_nil]
        omega

theorem gicfStep_get (of g : Str) (folders : SMap ReactiveFileMetadata)
    (kv : Str × ReactiveFileMetadata) :
    SMap.get (ReactiveCursor.gicfStep of folders kv) g =
      if of.isPrefixOf kv.1 = true ∧ kv.1 ≠ of ∧
          (splitOnChar '/' (kv.1.drop of.length)).headD [] = g then
        mergeFolderStep g (SMap.get folders g) kv.2
      else SMap.get folders g := by
  by_cases hg : ¬ (of.isPrefixOf kv.1) ∨ kv.1 = of
  · have hcond : ¬ (of.isPrefixOf kv.1 = true ∧ kv.1 ≠ of ∧
        (splitOnChar '/' (kv.1.drop of.length)).headD [] = g) := by
      rcases hg with h | h
      · exact fun hc => h hc.1
      · exact fun hc => hc.2.1 h
    rw [ReactiveCursor.gicfStep, if_pos hg, if_neg hcond]
  · push_neg at hg
    by_cases hseg : (splitOnChar '/' (kv.1.drop of.length)).headD [] = g
    · have hcond : of.isPrefixOf kv.1 = true ∧ kv.1 ≠ of ∧
          (splitOnChar '/' (kv.1.drop of.length)).headD [] = g := ⟨hg.1, hg.2, hseg⟩
      rw [ReactiveCursor.gicfStep, if_neg (by push_neg; exact hg), if_pos hcond]
      simp only [hseg]
      cases hfg : SMap.get folders g with
      | none => simp [mergeFolderStep, SMap.get_set_self, hfg]
      | some ex => simp [mergeFolderStep, SMap.get_set_self, hfg]
    · have hcond : ¬ (of.isPrefixOf kv.1 = true ∧ kv.1 ≠ of ∧
          (splitOnChar '/' (kv.1.drop of.length)).headD [] = g) := fun hc => hseg hc.2.2
      have hgne : g ≠ (splitOnChar '/' (kv.1.drop of.length)).headD [] :=
        fun h => hseg h.symm
      rw [ReactiveCursor.gicfStep, if_neg (by push_neg; exact hg), if_neg hcond]
      cases hf : SMap.get folders ((splitOnChar '/' (kv.1.drop of.length)).headD []) with
      | none => simp only [hf, SMap.get_set_ne _ _ _ _ hgne]
      | some ex => simp only [hf, SMap.get_set_ne _ _ _ _ hgne]

theorem getImmediateChildFolders_aux (of g : Str) :
    ∀ (children : SMap ReactiveFileMetadata) (folders : SMap ReactiveFileMetadata),
      SMap.get (children.foldl (ReactiveCursor.gicfStep of) folders) g =
        mergeFolderList g (SMap.get folders g) (folderContributors children of g) := by
  intro children
  induction children with
  | nil => intro folders; simp [folderContributors, mergeFolderList]
  | cons kv rest ih =>
    intro folders
    rw [List.foldl_cons, ih, gicfStep_get]
    by_cases hc : of.isPrefixOf kv.1 = true ∧ kv.1 ≠ of ∧
        (splitOnChar '/' (kv.1.drop of.length)).headD [] = g
    · rw [if_pos hc]
      have hfc : folderContributors (kv :: rest) of g =
          kv.2 :: folderContributors rest of g := by
        simp only [folderContributors, List.filter_cons]
        rw [if_pos (by simpa using hc)]
        simp
      rw [hfc]
      rfl
    · rw [if_neg hc]
      have hfc : folderContributors (kv :: rest) of g = folderContributors rest of g := by
        simp only [folderContributors, List.filter_cons]
        rw [if_neg (by simpa using hc)]
      rw [hfc]

theorem mergeFolderList_some (g : Str) :
    ∀ (cs : List ReactiveFileMetadata) (ex : ReactiveFileMetadata), ex.key = g →
      ∃ rec, mergeFolderList g (some ex) cs = some rec ∧ rec.key = g ∧
        rec.size = ex.size + (cs.map ReactiveFileMetadata.size).sum ∧
        (rec.lastModified = ex.lastModified ∨
          rec.lastModified ∈ cs.map ReactiveFileMetadata.lastModified) ∧
        ex.lastModified ≤ rec.lastModified ∧
        ∀ r ∈ cs, r.lastModified ≤ rec.lastModified := by
  intro cs
  induction cs with
  | nil =>
    intro ex hkey
    exact ⟨ex, rfl, hkey, by simp, Or.inl rfl, le_refl _, by simp⟩
  | cons d cs2 ih =>
    intro ex hkey
    obtain ⟨rec, hrun, hkey2, hsize, hmem, hle, hall⟩ := ih
      { key := g,
        lastModified :=
          if ex.lastModified < d.lastModified then d.lastModified else ex.lastModified,
        size := d.size + ex.size } rfl
    refine ⟨rec, ?_, hkey2, ?_, ?_, ?_, ?_⟩
    · simpa [mergeFolderList, mergeFolderStep] using hrun
    · simp only at hsize
      simp [hsize]
      omega
    · rcases hmem with h | h
      · simp only at h
        by_cases hlt : ex.lastModified < d.lastModified
        · right
          simp [h, hlt]
        · left
          simp [h, hlt]
      · right
        simp [h]
    · refine le_trans ?_ hle
      simp only
      by_cases hlt : ex.lastModified < d.lastModified <;> simp [hlt] <;> omega
    · intro r hr
      rcases List.mem_cons.mp hr with h | h
      · subst h
        refine le_trans ?_ hle
        simp only
        by_cases hlt : ex.lastModified < r.lastModified <;> simp [hlt] <;> omega
      · exact hall r h

theorem countChildNotify_append (a b : List REvent) (p : Str) :
    countChildNotify (a ++ b) p = countChildNotify a p + countChildNotify b p := by
  simp [countChildNotify, List.filter_append]

theorem countChildNotify_childNotify_ne (q p : Str) (ids : List Nat)
    (ch : SMap ReactiveFileMetadata) (h : q ≠ p) :
    countChildNotify (ids.map (fun id => REvent.childNotify q id ch)) p = 0 := by
  induction ids with
  | nil => simp [countChildNotify]
  | cons i rest ih => simpa [countChildNotify, List.filter_cons, h] using ih

theorem countChildNotify_childNotify_self (p : Str) (ids : List Nat)
    (ch : SMap ReactiveFileMetadata) :
    countChildNotify (ids.map (fun id => REvent.childNotify p id ch)) p = ids.length := by
  induction ids with
  | nil => simp [countChildNotify]
  | cons i rest ih => simpa [countChildNotify, List.filter_cons] using ih

theorem countChildNotify_metaNotify (p q : Str) (ids : List Nat)
    (file : Option ReactiveFileMetadata) :
    countChildNotify (ids.map (fun id => REvent.metaNotify q id file)) p = 0 := by
  induction ids with
  | nil => simp [countChildNotify]
  | cons i rest ih => simpa [countChildNotify, List.filter_cons] using ih

theorem uclFold_not_mem (files : SMap ReactiveFileMetadata)
    (l : List (Str × List Nat)) (p : Str) (hp : p ∉ l.map Prod.fst) :
    ∀ (ln : SMap (SMap ReactiveFileMetadata)) (evs : List REvent),
      SMap.get (l.foldl (ReactiveIndex.uclStep files) (ln, evs)).1 p = SMap.get ln p ∧
      countChildNotify (l.foldl (ReactiveIndex.uclStep files) (ln, evs)).2 p =
        countChildNotify evs p := by
  induction l with
  | nil => intro ln evs; exact ⟨rfl, rfl⟩
  | cons e rest ih =>
    intro ln evs
    simp only [List.map_cons, List.mem_cons] at hp
    push_neg at hp
    have hne : e.1 ≠ p := Ne.symm hp.1
    have step := ih hp.2
      (SMap.set ln e.1 (ReactiveIndex.getChildren files e.1))
      (evs ++ (if snapshotEq (SMap.getD ln e.1 []) (ReactiveIndex.getChildren files e.1)
        then []
        else e.2.map (fun id => REvent.childNotify e.1 id
          (ReactiveIndex.getChildren files e.1))))
    rw [List.foldl_cons]
    refine ⟨?_, ?_⟩
    · rw [show ReactiveIndex.uclStep files (ln, evs) e =
          (SMap.set ln e.1 (ReactiveIndex.getChildren files e.1),
            evs ++ (if snapshotEq (SMap.getD ln e.1 [])
                (ReactiveIndex.getChildren files e.1) then []
              else e.2.map (fun id => REvent.childNotify e.1 id
                (ReactiveIndex.getChildren files e.1)))) from rfl]
      rw [step.1]
      exact SMap.get_set_ne ln e.1 p _ (Ne.symm hne)
    · rw [show ReactiveIndex.uclStep files (ln, evs) e =
          (SMap.set ln e.1 (ReactiveIndex.getChildren files e.1),
            evs ++ (if snapshotEq (SMap.getD ln e.1 [])
                (ReactiveIndex.getChildren files e.1) then []
              else e.2.map (fun id => REvent.childNotify e.1 id
                (ReactiveIndex.getChildren files e.1)))) from rfl]
      rw [step.2, countChildNotify_append]
      by_cases hs : snapshotEq (SMap.getD ln e.1 []) (ReactiveIndex.getChildren files e.1)
      · simp [hs, countChildNotify]
      · simp only [if_neg hs]
        rw [countChildNotify_childNotify_ne e.1 p e.2 _ hne]
        omega

theorem uclFold_spec (files : SMap ReactiveFileMetadata) :
    ∀ (l : List (Str × List Nat)), (l.map Prod.fst).Nodup →
      ∀ (p : Str) (ids : List Nat), SMap.get l p = some ids →
      ∀ (ln : SMap (SMap ReactiveFileMetadata)) (evs : List REvent),
        SMap.get (l.foldl (ReactiveIndex.uclStep files) (ln, evs)).1 p =
          some (ReactiveIndex.getChildren files p) ∧
        countChildNotify (l.foldl (ReactiveIndex.uclStep files) (ln, evs)).2 p =
          countChildNotify evs p +
            (if snapshotEq (SMap.getD ln p []) (ReactiveIndex.getChildren files p)
              then 0 else ids.length) := by
  intro l
  induction l with
  | nil => intro _ p ids hget; exact absurd hget (by simp [SMap.get])
  | cons e rest ih =>
    intro hnd p ids hget ln evs
    rw [List.map_cons] at hnd
    have hnd2 := List.nodup_cons.mp hnd
    rw [List.foldl_cons]
    rw [show ReactiveIndex.uclStep files (ln, evs) e =
        (SMap.set ln e.1 (ReactiveIndex.getChildren files e.1),
          evs ++ (if snapshotEq (SMap.getD ln e.1 [])
              (ReactiveIndex.getChildren files e.1) then []
            else e.2.map (fun id => REvent.childNotify e.1 id
              (ReactiveIndex.getChildren files e.1)))) from rfl]
    by_cases hep : e.1 = p
    · have hids : ids = e.2 := by
        rw [SMap.get, if_pos hep] at hget
        exact (Option.some_inj.mp hget).symm
      subst hep
      have hrest := uclFold_not_mem files rest e.1 hnd2.1
        (SMap.set ln e.1 (ReactiveIndex.getChildren files e.1))
        (evs ++ (if snapshotEq (SMap.getD ln e.1 [])
            (ReactiveIndex.getChildren files e.1) then []
          else e.2.map (fun id => REvent.childNotify e.1 id
            (ReactiveIndex.getChildren files e.1))))
      refine ⟨?_, ?_⟩
      · rw [hrest.1, SMap.get_set_self]
      · rw [hrest.2, countChildNotify_append, hids]
        by_cases hs : snapshotEq (SMap.getD ln e.1 [])
            (ReactiveIndex.getChildren files e.1)
        · simp [hs, countChildNotify]
        · simp only [if_neg hs]
          rw [countChildNotify_childNotify_self]
    · have hget2 : SMap.get rest p = some ids := by
        rw [SMap.get, if_neg hep] at hget
        exact hget
      have := ih hnd2.2 p ids hget2
        (SMap.set ln e.1 (ReactiveIndex.getChildren files e.1))
        (evs ++ (if snapshotEq (SMap.getD ln e.1 [])
            (ReactiveIndex.getChildren files e.1) then []
          else e.2.map (fun id => REvent.childNotify e.1 id
            (ReactiveIndex.getChildren files e.1))))
      refine ⟨this.1, ?_⟩
      rw [this.2, countChildNotify_append]
      rw [SMap.getD_set_ne ln e.1 p _ _ (Ne.symm hep)]
      by_cases hs : snapshotEq (SMap.getD ln e.1 [])
          (ReactiveIndex.getChildren files e.1)
      · simp [hs, countChildNotify]
      · simp only [if_neg hs]
        rw [countChildNotify_childNotify_ne e.1 p e.2 _ hep]
        omega

theorem updateChildListeners_spec (s : ReactiveIndex)
    (hnd : (s.childrenListeners.map Prod.fst).Nodup) (p : Str) (ids : List Nat)
    (hp : SMap.get s.childrenListeners p = some ids) :
    SMap.get (ReactiveIndex.updateChildListeners s).1.childrenLastNotified p =
      some (ReactiveIndex.getChildren s.files p) ∧
    countChildNotify (ReactiveIndex.updateChildListeners s).2 p =
      (if snapshotEq (SMap.getD s.childrenLastNotified p [])
        (ReactiveIndex.getChildren s.files p) then 0 else ids.length) := by
  have := uclFold_spec s.files s.childrenListeners hnd p ids hp
    s.childrenLastNotified []
  refine ⟨this.1, ?_⟩
  have h2 := this.2
  simpa [countChildNotify] using h2

theorem countL_addListenerL_self (m : SMap (List Nat)) (p : Str) (id : Nat) :
    countL (ReactiveIndex.addListenerL m p id) p id = countL m p id + 1 := by
  simp [countL, ReactiveIndex.addListenerL, SMap.getD_set_self, List.count_append]

theorem countL_addListenerL_ne (m : SMap (List Nat)) (p p2 : Str) (id : Nat)
    (h : p2 ≠ p) :
    countL (ReactiveIndex.addListenerL m p id) p2 id = countL m p2 id := by
  simp [countL, ReactiveIndex.addListenerL, SMap.getD_set_ne _ _ _ _ _ h]

theorem countL_removeListenerL_self (m : SMap (List Nat)) (p : Str) (id : Nat) :
    countL (ReactiveIndex.removeListenerL m p id) p id = countL m p id - 1 := by
  rw [ReactiveIndex.removeListenerL]
  cases hget : SMap.get m p with
  | none => simp [countL, SMap.getD, hget]
  | some l => simp [countL, SMap.getD, hget, SMap.get_set_self, List.count_erase_self]

theorem countL_removeListenerL_ne (m : SMap (List Nat)) (p p2 : Str) (id : Nat)
    (h : p2 ≠ p) :
    countL (ReactiveIndex.removeListenerL m p id) p2 id = countL m p2 id := by
  rw [ReactiveIndex.removeListenerL]
  cases hget : SMap.get m p with
  | none => rfl
  | some l => simp [countL, SMap.getD_set_ne _ _ _ _ _ h]

theorem runSets_pending (events : List (Nat × Str × JSVal)) :
    ∀ (f : ReactiveJsonFile) (d : Nat), f.pendingTimeout = some d →
      burstB d events = true →
      ReactiveJsonFile.runSets f events =
        ({ f with values := applySets f.values events, pendingTimeout := none },
          [JEvent.upload (applySets f.values events), JEvent.notifyChange]) := by
  induction events with
  | nil =>
    intro f d hp _
    simp [ReactiveJsonFile.runSets, hp, ReactiveJsonFile.fireTimer, applySets]
  | cons e rest ih =>
    intro f d hp hb
    obtain ⟨t, k, v⟩ := e
    rw [burstB] at hb
    simp only [Bool.and_eq_true, decide_eq_true_eq] at hb
    have hstep := ih (ReactiveJsonFile.setAttribute f t k v) (t + 500) rfl hb.2
    rw [ReactiveJsonFile.runSets]
    simp only [hp]
    have hnle : ¬ d ≤ t := by omega
    rw [if_neg hnle, hstep]
    simp [ReactiveJsonFile.setAttribute, ReactiveJsonFile.restartUploadTimer, applySets]

/-! ## Claims -/

/-- C5: error propagation is split by operation. When the underlying store
operation fails, `upload` records a network error under "Upload" and rejects,
`delete` records one under "Delete" and re-throws, while `fullRefresh` records
its error under "FullRefresh" but returns a promise that resolves. -/
theorem claim_C5 :
    (∀ s path contentsSize now,
      (ReactiveIndex.upload s path contentsSize now false).2.2 = Except.error () ∧
      SMap.get (ReactiveIndex.upload s path contentsSize now false).1.networkErrors
        (s2l "Upload") = some (s2l "We got an error trying to upload a file!")) ∧
    (∀ s path,
      (ReactiveIndex.deleteOp s path false).2.2 = Except.error () ∧
      SMap.get (ReactiveIndex.deleteOp s path false).1.networkErrors (s2l "Delete") =
        some (s2l "We got an error trying to delete a file!")) ∧
    (∀ s,
      (ReactiveIndex.fullRefresh s none).2.2 = Except.ok () ∧
      SMap.get (ReactiveIndex.fullRefresh s none).1.networkErrors (s2l "FullRefresh") =
        some (s2l "We got an error trying to load the files! Attempting to reconnect...")) := by
  refine ⟨fun s path cs now => ⟨rfl, ?_⟩, fun s path => ⟨rfl, ?_⟩, fun s => ⟨rfl, ?_⟩⟩
  all_goals
    simp [ReactiveIndex.upload, ReactiveIndex.deleteOp, ReactiveIndex.fullRefresh,
      ReactiveIndex.setNetworkError, SMap.get_set_self]

/-- C6: `upload` never touches the local key → record map; it only publishes an
update event carrying the prefixed key, the current timestamp and the size
after the store put completes. -/
theorem claim_C6 :
    ∀ s path contentsSize now storeOk,
      (ReactiveIndex.upload s path contentsSize now storeOk).1.files = s.files ∧
      (ReactiveIndex.upload s path contentsSize now true).2.1 =
        [REvent.publishUpdate
          (makeTopicPubSubSafe (s2l "/UPDATE/" ++ (s.globalPrefix ++ path)))
          { key := s.globalPrefix ++ path, lastModified := now, size := contentsSize }] := by
  intro s path cs now ok
  constructor
  · cases ok <;>
      simp [ReactiveIndex.upload, ReactiveIndex.setNetworkError,
        ReactiveIndex.clearNetworkError]
  · rfl

/-- C9: `getAttribute(key, default)` returns the default whenever the stored
value is `null` or `undefined` — including a `null` explicitly stored through
`setAttribute` — and the stored value otherwise; a stored `null` is
indistinguishable, through `getAttribute`, from an absent key. -/
theorem claim_C9 :
    (∀ f key d, SMap.get f.values key = none →
      ReactiveJsonFile.getAttribute f key d = d) ∧
    (∀ f key d, SMap.get f.values key = some JSVal.null ∨
        SMap.get f.values key = some JSVal.undef →
      ReactiveJsonFile.getAttribute f key d = d) ∧
    (∀ f now key d,
      ReactiveJsonFile.getAttribute (ReactiveJsonFile.setAttribute f now key JSVal.null)
        key d = d) ∧
    (∀ f now key k2 d,
      ReactiveJsonFile.getAttribute (ReactiveJsonFile.setAttribute f now key JSVal.null)
        k2 d =
      ReactiveJsonFile.getAttribute { f with values := SMap.del f.values key } k2 d) ∧
    (∀ f key d v, SMap.get f.values key = some v → jsEqNull (some v) = false →
      ReactiveJsonFile.getAttribute f key d = v) := by
  refine ⟨?_, ?_, ?_, ?_, ?_⟩
  · intro f key d h
    simp [ReactiveJsonFile.getAttribute, h, jsEqNull]
  · intro f key d h
    rcases h with h | h <;> simp [ReactiveJsonFile.getAttribute, h, jsEqNull]
  · intro f now key d
    simp [ReactiveJsonFile.getAttribute, ReactiveJsonFile.setAttribute,
      ReactiveJsonFile.restartUploadTimer, SMap.get_set_self, jsEqNull]
  · intro f now key k2 d
    by_cases h : k2 = key
    · subst h
      simp [ReactiveJsonFile.getAttribute, ReactiveJsonFile.setAttribute,
        ReactiveJsonFile.restartUploadTimer, SMap.get_set_self, SMap.get_del_self,
        jsEqNull]
    · simp [ReactiveJsonFile.getAttribute, ReactiveJsonFile.setAttribute,
        ReactiveJsonFile.restartUploadTimer, SMap.get_set_ne _ _ _ _ h,
        SMap.get_del_ne _ _ _ h]
  · intro f key d v h hv
    simp [ReactiveJsonFile.getAttribute, h, hv]

/-- C9 witness: the theorem applied at concrete documents — an absent key
yields the default, and a stored non-null value is returned as is. -/
theorem claim_C9_witness :
    ReactiveJsonFile.getAttribute jf0 (s2l "k") (JSVal.num 7) = JSVal.num 7 ∧
    ReactiveJsonFile.getAttribute jf1 (s2l "k") (JSVal.num 7) = JSVal.num 3 :=
  ⟨claim_C9.1 jf0 (s2l "k") (JSVal.num 7) rfl,
   claim_C9.2.2.2.2 jf1 (s2l "k") (JSVal.num 7) (JSVal.num 3) rfl rfl⟩

/-- C1: the update merge is last-writer-wins by timestamp. When no record is
stored for the incoming key or the stored record is strictly older, the
incoming record replaces it; otherwise the index (and its event output) is
left unchanged. Consequently, for updates of a single key with distinct
timestamps the final stored record is the one with the maximum timestamp, and
the result at that key is independent of the delivery order. -/
theorem claim_C1 :
    (∀ s file, ReactiveIndex.shouldReplace s file →
      (ReactiveIndex.updateFileInIndex s file).1.files =
        SMap.set s.files file.key file ∧
      SMap.get (ReactiveIndex.updateFileInIndex s file).1.files file.key = some file) ∧
    (∀ s file existingFile, SMap.get s.files file.key = some existingFile →
      file.lastModified ≤ existingFile.lastModified →
      ReactiveIndex.updateFileInIndex s file = (s, [])) ∧
    (∀ (s : ReactiveIndex) (k : Str) (l : List ReactiveFileMetadata), l ≠ [] →
      (∀ r ∈ l, r.key = k) → SMap.get s.files k = none →
      ∃ r, r ∈ l ∧ SMap.get (ReactiveIndex.applyUpdates s l).files k = some r ∧
        ∀ r2 ∈ l, r2.lastModified ≤ r.lastModified) ∧
    (∀ (s : ReactiveIndex) (k : Str) (l l2 : List ReactiveFileMetadata), l.Perm l2 →
      l ≠ [] → (∀ r ∈ l, r.key = k) →
      l.Pairwise (fun a b => a.lastModified ≠ b.lastModified) →
      SMap.get s.files k = none →
      SMap.get (ReactiveIndex.applyUpdates s l).files k =
        SMap.get (ReactiveIndex.applyUpdates s l2).files k) := by
  refine ⟨?_, ?_, ?_, ?_⟩
  · intro s file h
    have hfiles := ReactiveIndex.updateFileInIndex_files_of_replace s file h
    exact ⟨hfiles, by rw [hfiles, SMap.get_set_self]⟩
  · intro s file existingFile hget hle
    refine ReactiveIndex.updateFileInIndex_of_stale s file ?_
    unfold ReactiveIndex.shouldReplace
    rw [hget]
    omega
  · intro s k l hne hk hnone
    exact applyUpdates_max s k l hne hk hnone
  · intro s k l l2 hperm hne hk hpw hnone
    obtain ⟨r, hrmem, hrget, hrmax⟩ := applyUpdates_max s k l hne hk hnone
    have hne2 : l2 ≠ [] := by
      intro h
      exact hne (List.Perm.eq_nil (h ▸ hperm))
    have hk2 : ∀ r2 ∈ l2, r2.key = k := fun r2 h => hk r2 (hperm.mem_iff.mpr h)
    obtain ⟨r2, hr2mem, hr2get, hr2max⟩ := applyUpdates_max s k l2 hne2 hk2 hnone
    have hr2l : r2 ∈ l := hperm.mem_iff.mpr hr2mem
    have hrl2 : r ∈ l2 := hperm.mem_iff.mp hrmem
    have heq : r = r2 :=
      eq_of_pairwise_ne_lastModified l hpw r r2 hrmem hr2l
        (Nat.le_antisymm (hr2max r hrl2) (hrmax r2 hr2l))
    rw [hrget, hr2get, heq]

/-- C1 witness: replaying the three distinct-timestamp updates for key "f" in
two different orders over an empty index yields the same stored record, the
one with the maximum timestamp. -/
theorem claim_C1_witness :
    SMap.get (ReactiveIndex.applyUpdates emptyIndex updList1).files (s2l "f") =
      SMap.get (ReactiveIndex.applyUpdates emptyIndex updList2).files (s2l "f") ∧
    SMap.get (ReactiveIndex.applyUpdates emptyIndex updList1).files (s2l "f") =
      some recC :=
  ⟨claim_C1.2.2.2 emptyIndex (s2l "f") updList1 updList2 (by decide) (by decide)
      (by decide) (by decide) rfl,
   by decide⟩

/-- C2 (amended): `getChildren(p)` first normalizes `p` by appending `"/"`
unless `p` is empty or already ends with `"/"`; it then returns exactly the
entries whose keys start with the normalized prefix and are not the normalized
prefix itself, re-keyed by the suffix after that prefix. In particular, for
files {"a/x.txt", "a/y.txt", "b.txt"}, `getChildren("a")` returns
{"x.txt", "y.txt"} and `getChildren("")` returns all three keys unchanged. -/
theorem claim_C2 :
    (∀ (files : SMap ReactiveFileMetadata) (path s : Str),
      (files.map Prod.fst).Nodup →
      SMap.get (ReactiveIndex.getChildren files path) s =
        if s = [] then none
        else SMap.get files (ReactiveIndex.normalizePath path ++ s)) ∧
    ReactiveIndex.getChildren files3 (s2l "a") =
      [(s2l "x.txt", recX), (s2l "y.txt", recY)] ∧
    ReactiveIndex.getChildren files3 (s2l "") = files3 := by
  refine ⟨fun files path s hnd => getChildren_get files path s hnd, by decide, by decide⟩

/-- C2 counterexample: the claim's universal description fails at `p = ""`.
`getChildren("")` returns the entry for key "b.txt" although "b.txt" does not
start with `"" + "/"`, so the result is not "exactly the entries whose keys
start with p followed by '/'". -/
theorem claim_C2_counterexample :
    SMap.get (ReactiveIndex.getChildren files3 (s2l "")) (s2l "b.txt") = some recBt ∧
    (s2l "" ++ s2l "/").isPrefixOf (s2l "b.txt") = false := by decide

/-- C2 witness: the characterization applied at the concrete three-file map
and path "a". -/
theorem claim_C2_witness :
    SMap.get (ReactiveIndex.getChildren files3 (s2l "a")) (s2l "x.txt") =
      (if s2l "x.txt" = [] then none
       else SMap.get files3 (ReactiveIndex.normalizePath (s2l "a") ++ s2l "x.txt")) :=
  claim_C2.1 files3 (s2l "a") (s2l "x.txt") (by decide)

/-- C8: topic truncation. A path of length at most 80 is returned unchanged;
otherwise, when the first "/"-segment alone exceeds 80 characters its first 80
characters are returned; otherwise the result is whole segments joined by "/",
the longest prefix of segments whose join stays under the 80-character limit
(never splitting a segment). In particular a slash-free 100-character path
truncates to its first 80 characters. -/
theorem claim_C8 :
    (∀ path : Str, path.length ≤ 80 → makeTopicPubSubSafe path = path) ∧
    (∀ path : Str, 80 < path.length →
      80 < ((splitOnChar '/' path).headD []).length →
      makeTopicPubSubSafe path = ((splitOnChar '/' path).headD []).take 80) ∧
    (∀ path : Str, 80 < path.length →
      ((splitOnChar '/' path).headD []).length ≤ 80 →
      ∃ K, K ≤ (splitOnChar '/' path).length ∧
        makeTopicPubSubSafe path = joinSegs ((splitOnChar '/' path).take K) ∧
        (joinSegs ((splitOnChar '/' path).take K)).length < 80 ∧
        (∀ j, j ≤ (splitOnChar '/' path).length →
          (joinSegs ((splitOnChar '/' path).take j)).length < 80 → j ≤ K)) ∧
    makeTopicPubSubSafe path100 = path100.take 80 := by
  refine ⟨?_, ?_, ?_, by decide⟩
  · intro path h
    rw [makeTopicPubSubSafe, if_neg (by omega)]
  · intro path h80 hseg
    rw [makeTopicPubSubSafe, if_pos (by omega)]
    simp only [if_pos (by omega : ((splitOnChar '/' path).headD []).length > 80)]
  · intro path h80 hseg
    have hout : makeTopicPubSubSafe path = reconstructLoop (splitOnChar '/' path) true [] := by
      rw [makeTopicPubSubSafe, if_pos (by omega)]
      simp only [if_neg (by omega : ¬ ((splitOnChar '/' path).headD []).length > 80)]
    obtain ⟨mid, hpre, hrun, hfit, hbrk⟩ :=
      reconstructLoop_go (splitOnChar '/' path) [] (by simp [joinSegs])
    have hmid : mid = (splitOnChar '/' path).take mid.length :=
      List.prefix_iff_eq_take.mp hpre
    have hKle : mid.length ≤ (splitOnChar '/' path).length := hpre.length_le
    refine ⟨mid.length, hKle, ?_, ?_, ?_⟩
    · rw [hout, ← hmid]
      simpa using hrun
    · rw [← hmid]
      simpa using hfit
    · intro j hj hfitj
      by_contra hKj
      push_neg at hKj
      by_cases hms : mid = splitOnChar '/' path
      · have : mid.length = (splitOnChar '/' path).length := by rw [hms]
        omega
      · obtain ⟨nxt, rest2, hsplit, hlen⟩ := hbrk hms
        simp only [List.nil_append] at hlen
        have htake1 : (splitOnChar '/' path).take (mid.length + 1) = mid ++ [nxt] := by
          rw [hsplit, List.take_add, List.take_left, List.drop_left]
          rfl
        have hdecomp : (splitOnChar '/' path).take j =
            (splitOnChar '/' path).take (mid.length + 1) ++
              (((splitOnChar '/' path).drop (mid.length + 1)).take (j - (mid.length + 1))) := by
          rw [← List.take_add]
          congr 1
          omega
        have hmono := joinSegs_length_le_append
          ((splitOnChar '/' path).take (mid.length + 1))
          (((splitOnChar '/' path).drop (mid.length + 1)).take (j - (mid.length + 1)))
        rw [← hdecomp, htake1] at hmono
        omega

/-- C8 witness: the greedy-segment characterization applied at the concrete
87-character, eight-segment path (and the concrete slash-free 100-character
clause is part of the theorem itself). -/
theorem claim_C8_witness :
    ∃ K, K ≤ (splitOnChar '/' path87).length ∧
      makeTopicPubSubSafe path87 = joinSegs ((splitOnChar '/' path87).take K) ∧
      (joinSegs ((splitOnChar '/' path87).take K)).length < 80 ∧
      (∀ j, j ≤ (splitOnChar '/' path87).length →
        (joinSegs ((splitOnChar '/' path87).take j)).length < 80 → j ≤ K) :=
  claim_C8.2.2.1 path87 (by decide) (by decide)

/-- C10: `getImmediateChildFolders(of)` considers every cached child whose key
starts with `of` as a raw string and differs from `of`, strips exactly `of`,
and groups by the first "/"-segment of the remainder — a key extending `of`
without an intervening separator still contributes, yielding a folder named by
the partial segment (key "ab/x" with of "a" yields folder "b"); a folder's
size is the sum of its contributors' sizes and its lastModified is their
maximum. -/
theorem claim_C10 :
    (∀ (children : SMap ReactiveFileMetadata) (of g : Str),
      folderContributors children of g = [] →
      SMap.get (ReactiveCursor.getImmediateChildFolders children of) g = none) ∧
    (∀ (children : SMap ReactiveFileMetadata) (of g : Str)
        (c : ReactiveFileMetadata) (cs : List ReactiveFileMetadata),
      folderContributors children of g = c :: cs →
      ∃ rec,
        SMap.get (ReactiveCursor.getImmediateChildFolders children of) g = some rec ∧
        rec.key = g ∧
        rec.size = ((c :: cs).map ReactiveFileMetadata.size).sum ∧
        rec.lastModified ∈ (c :: cs).map ReactiveFileMetadata.lastModified ∧
        ∀ r ∈ c :: cs, r.lastModified ≤ rec.lastModified) ∧
    ReactiveCursor.getImmediateChildFolders [(s2l "ab/x", recAbx)] (s2l "a") =
      [(s2l "b", { key := s2l "b", lastModified := 7, size := 9 })] := by
  refine ⟨?_, ?_, by decide⟩
  · intro children of g h
    rw [ReactiveCursor.getImmediateChildFolders,
      getImmediateChildFolders_aux of g children [], h]
    rfl
  · intro children of g c cs h
    obtain ⟨rec, hrun, hkey, hsize, hmem, hle, hall⟩ := mergeFolderList_some g cs
      { key := g, lastModified := c.lastModified, size := c.size } rfl
    refine ⟨rec, ?_, hkey, ?_, ?_, ?_⟩
    · rw [ReactiveCursor.getImmediateChildFolders,
        getImmediateChildFolders_aux of g children [], h]
      exact hrun
    · simp only at hsize
      simp [hsize]
    · rcases hmem with hm | hm
      · simp only at hm
        simp [hm]
      · simp [hm]
    · intro r hr
      rcases List.mem_cons.mp hr with hr2 | hr2
      · subst hr2
        simpa using hle
      · exact hall r hr2

/-- C10 witness: the characterization applied at the spec's aggregation
example — files {"a/x.txt" size 4, "a/y.txt" size 5} under prefix "" yield
folder "a" with summed size and maximal lastModified. -/
theorem claim_C10_witness :
    ∃ rec,
      SMap.get (ReactiveCursor.getImmediateChildFolders files3 (s2l "")) (s2l "a") =
        some rec ∧
      rec.key = s2l "a" ∧
      rec.size = (([recX, recY]).map ReactiveFileMetadata.size).sum ∧
      rec.lastModified ∈ ([recX, recY]).map ReactiveFileMetadata.lastModified ∧
      ∀ r ∈ [recX, recY], r.lastModified ≤ rec.lastModified :=
  claim_C10.2.1 files3 (s2l "") (s2l "a") recX [recY] (by decide)

/-- C4 (amended): children-listener notifications are change-detected. An
update that is not strictly newer is discarded entirely (no state change, no
notifications) — even if only its `size` differs. When an update is applied,
for every registered children-listener path the fresh children snapshot is
compared, order-independently by full contents, against the last-notified one;
each listener for the path is invoked exactly once if they differ and not at
all otherwise, and the stored snapshot is refreshed. In particular, with a
listener on "a" and "a/x.txt" stored, re-applying the identical record invokes
nothing, and applying a record with a strictly newer lastModified and a
different size invokes the listener exactly once. -/
theorem claim_C4 :
    (∀ s file existingFile, SMap.get s.files file.key = some existingFile →
      file.lastModified ≤ existingFile.lastModified →
      ReactiveIndex.updateFileInIndex s file = (s, [])) ∧
    (∀ s file, ReactiveIndex.shouldReplace s file →
      (s.childrenListeners.map Prod.fst).Nodup →
      ∀ p ids, SMap.get s.childrenListeners p = some ids →
        countChildNotify (ReactiveIndex.updateFileInIndex s file).2 p =
          (if snapshotEq (SMap.getD s.childrenLastNotified p [])
              (ReactiveIndex.getChildren (SMap.set s.files file.key file) p)
            then 0 else ids.length) ∧
        SMap.get (ReactiveIndex.updateFileInIndex s file).1.childrenLastNotified p =
          some (ReactiveIndex.getChildren (SMap.set s.files file.key file) p)) ∧
    (ReactiveIndex.updateFileInIndex idx4 recAx = (idx4, []) ∧
      countChildNotify (ReactiveIndex.updateFileInIndex idx4 recAx2).2 (s2l "a") = 1) := by
  refine ⟨?_, ?_, by decide⟩
  · intro s file existingFile hget hle
    refine ReactiveIndex.updateFileInIndex_of_stale s file ?_
    unfold ReactiveIndex.shouldReplace
    rw [hget]
    omega
  · intro s file hrep hnd p ids hget
    rw [ReactiveIndex.updateFileInIndex, if_pos hrep]
    have hspec := updateChildListeners_spec
      { s with files := SMap.set s.files file.key file } hnd p ids hget
    refine ⟨?_, hspec.1⟩
    rw [countChildNotify_append, countChildNotify_metaNotify]
    have h2 := hspec.2
    simpa using h2

/-- C4 counterexample: with a children-listener on "a", a record for "a/x.txt"
stored, and the last-notified snapshot current, applying an update whose size
differs but whose lastModified is not strictly newer is discarded: the
listener is invoked zero times, not exactly once as the claim states. -/
theorem claim_C4_counterexample :
    recAx3.size ≠ recAx.size ∧
    SMap.get idx4.files recAx3.key = some recAx ∧
    SMap.get idx4.childrenListeners (s2l "a") = some [0] ∧
    ReactiveIndex.updateFileInIndex idx4 recAx3 = (idx4, []) ∧
    countChildNotify (ReactiveIndex.updateFileInIndex idx4 recAx3).2 (s2l "a") = 0 := by
  decide

/-- C4 witness: the diffing clause applied at the concrete index, for the
strictly newer different-size update of "a/x.txt" and the listener on "a". -/
theorem claim_C4_witness :
    countChildNotify (ReactiveIndex.updateFileInIndex idx4 recAx2).2 (s2l "a") =
      (if snapshotEq (SMap.getD idx4.childrenLastNotified (s2l "a") [])
          (ReactiveIndex.getChildren (SMap.set idx4.files recAx2.key recAx2) (s2l "a"))
        then 0 else [0].length) ∧
    SMap.get (ReactiveIndex.updateFileInIndex idx4 recAx2).1.childrenLastNotified
        (s2l "a") =
      some (ReactiveIndex.getChildren (SMap.set idx4.files recAx2.key recAx2) (s2l "a")) :=
  claim_C4.2.1 idx4 recAx2 (by decide) (by decide) (s2l "a") [0] (by decide)

/-- C3 (amended): `setPath` and `setIndex` share the unregister / swap /
re-derive / re-register protocol and are no-ops on an unchanged argument, but
only `setPath` propagates the re-point to the owned JsonDocuments; `setIndex`
leaves them untouched. Both synchronously re-derive the cached metadata and
children from the new (path, index) pair, and move the cursor's listener
registrations (when registered exactly once at the current pair and not yet at
the new one) so that afterwards the old pair holds none and the new pair holds
exactly one, in both registries. -/
theorem claim_C3 :
    (∀ c, ReactiveCursor.setPath c c.path = c) ∧
    (∀ c, ReactiveCursor.setIndex c c.index = (c, c.index)) ∧
    (∀ c p, p ≠ c.path →
      (ReactiveCursor.setPath c p).path = p ∧
      (ReactiveCursor.setPath c p).index.files = c.index.files ∧
      (ReactiveCursor.setPath c p).metadata =
        ReactiveIndex.getMetadata c.index.files p ∧
      (ReactiveCursor.setPath c p).children =
        ReactiveIndex.getChildren c.index.files p ∧
      (ReactiveCursor.setPath c p).jsonFiles = c.jsonFiles.map
        (fun kv => (kv.1,
          ReactiveJsonFile.pathChanged (ReactiveIndex.getChildren c.index.files p) kv.2))) ∧
    (∀ c p, p ≠ c.path →
      countL c.index.metadataListeners c.path c.id = 1 →
      countL c.index.childrenListeners c.path c.id = 1 →
      countL c.index.metadataListeners p c.id = 0 →
      countL c.index.childrenListeners p c.id = 0 →
      countL (ReactiveCursor.setPath c p).index.metadataListeners c.path c.id = 0 ∧
      countL (ReactiveCursor.setPath c p).index.childrenListeners c.path c.id = 0 ∧
      countL (ReactiveCursor.setPath c p).index.metadataListeners p c.id = 1 ∧
      countL (ReactiveCursor.setPath c p).index.childrenListeners p c.id = 1) ∧
    (∀ c idx, idx ≠ c.index →
      (ReactiveCursor.setIndex c idx).1.path = c.path ∧
      (ReactiveCursor.setIndex c idx).1.metadata =
        ReactiveIndex.getMetadata idx.files c.path ∧
      (ReactiveCursor.setIndex c idx).1.children =
        ReactiveIndex.getChildren idx.files c.path ∧
      (ReactiveCursor.setIndex c idx).1.jsonFiles = c.jsonFiles ∧
      (ReactiveCursor.setIndex c idx).1.index.files = idx.files) ∧
    (∀ c idx, idx ≠ c.index →
      countL c.index.metadataListeners c.path c.id = 1 →
      countL c.index.childrenListeners c.path c.id = 1 →
      countL idx.metadataListeners c.path c.id = 0 →
      countL idx.childrenListeners c.path c.id = 0 →
      countL (ReactiveCursor.setIndex c idx).2.metadataListeners c.path c.id = 0 ∧
      countL (ReactiveCursor.setIndex c idx).2.childrenListeners c.path c.id = 0 ∧
      countL (ReactiveCursor.setIndex c idx).1.index.metadataListeners c.path c.id = 1 ∧
      countL (ReactiveCursor.setIndex c idx).1.index.childrenListeners c.path c.id = 1) := by
  refine ⟨?_, ?_, ?_, ?_, ?_, ?_⟩
  · intro c
    simp [ReactiveCursor.setPath]
  · intro c
    simp [ReactiveCursor.setIndex]
  · intro c p h
    simp only [ReactiveCursor.setPath, if_neg h, ReactiveIndex.addMetadataListener,
      ReactiveIndex.addChildrenListener, ReactiveIndex.removeMetadataListener,
      ReactiveIndex.removeChildrenListener]
    exact ⟨trivial, trivial, trivial, trivial, trivial⟩
  · intro c p h h1 h2 h3 h4
    simp only [ReactiveCursor.setPath, if_neg h, ReactiveIndex.addChildrenListener,
      ReactiveIndex.addMetadataListener, ReactiveIndex.removeChildrenListener,
      ReactiveIndex.removeMetadataListener]
    refine ⟨?_, ?_, ?_, ?_⟩
    · rw [countL_addListenerL_ne _ _ _ _ (Ne.symm h),
        countL_removeListenerL_self, h1]
    · rw [countL_addListenerL_ne _ _ _ _ (Ne.symm h),
        countL_removeListenerL_self, h2]
    · rw [countL_addListenerL_self, countL_removeListenerL_ne _ _ _ _ h, h3]
    · rw [countL_addListenerL_self, countL_removeListenerL_ne _ _ _ _ h, h4]
  · intro c idx h
    simp only [ReactiveCursor.setIndex, if_neg h, ReactiveIndex.addMetadataListener,
      ReactiveIndex.addChildrenListener, ReactiveIndex.removeMetadataListener,
      ReactiveIndex.removeChildrenListener]
    exact ⟨trivial, trivial, trivial, trivial, trivial⟩
  · intro c idx h h1 h2 h3 h4
    simp only [ReactiveCursor.setIndex, if_neg h, ReactiveIndex.addChildrenListener,
      ReactiveIndex.addMetadataListener, ReactiveIndex.removeChildrenListener,
      ReactiveIndex.removeMetadataListener]
    refine ⟨?_, ?_, ?_, ?_⟩
    · rw [countL_removeListenerL_self, h1]
    · rw [countL_removeListenerL_self, h2]
    · rw [countL_addListenerL_self, h3]
    · rw [countL_addListenerL_self, h4]

/-- C3 counterexample: `setIndex` does not propagate the re-point to the owned
JsonDocuments. Re-pointing the concrete cursor to an empty index (a genuinely
different index) leaves its JSON document untouched, although `pathChanged`
against the new index would have cleared its values — so "each re-fetches its
backing file" is false for `setIndex`. -/
theorem claim_C3_counterexample :
    emptyIndex ≠ curC3.index ∧
    (ReactiveCursor.setIndex curC3 emptyIndex).1.jsonFiles = curC3.jsonFiles ∧
    ReactiveJsonFile.pathChanged
      (ReactiveIndex.getChildren emptyIndex.files curC3.path) jfC3 ≠ jfC3 := by
  decide

/-- C3 witness: the listener-accounting clause of `setPath` applied to the
concrete cursor re-pointed from "p" to "q". -/
theorem claim_C3_witness :
    countL (ReactiveCursor.setPath curC3 (s2l "q")).index.metadataListeners
      curC3.path curC3.id = 0 ∧
    countL (ReactiveCursor.setPath curC3 (s2l "q")).index.childrenListeners
      curC3.path curC3.id = 0 ∧
    countL (ReactiveCursor.setPath curC3 (s2l "q")).index.metadataListeners
      (s2l "q") curC3.id = 1 ∧
    countL (ReactiveCursor.setPath curC3 (s2l "q")).index.childrenListeners
      (s2l "q") curC3.id = 1 :=
  claim_C3.2.2.2.1 curC3 (s2l "q") (by decide) (by decide) (by decide) (by decide)
    (by decide)

/-- C7: the debounce protocol. Every `setAttribute` stores the value, cancels
any pending timer and schedules a fresh one 500ms out; a timer firing
uninterrupted serializes the full mapping, uploads it once, then invokes the
change listeners. Hence a burst of `setAttribute` calls, each strictly within
500ms of the previous, run to completion produces exactly one upload, whose
payload is the final merged mapping. -/
theorem claim_C7 :
    (∀ f now k v, ReactiveJsonFile.setAttribute f now k v =
      { f with values := SMap.set f.values k v, pendingTimeout := some (now + 500) }) ∧
    (∀ f, ReactiveJsonFile.fireTimer f =
      ({ f with pendingTimeout := none },
        [JEvent.upload f.values, JEvent.notifyChange])) ∧
    (∀ (f : ReactiveJsonFile) t k v rest, f.pendingTimeout = none →
      burstB (t + 500) rest = true →
      ReactiveJsonFile.runSets f ((t, k, v) :: rest) =
        ({ f with values := applySets f.values ((t, k, v) :: rest),
                  pendingTimeout := none },
          [JEvent.upload (applySets f.values ((t, k, v) :: rest)),
            JEvent.notifyChange])) := by
  refine ⟨fun f now k v => rfl, fun f => rfl, ?_⟩
  intro f t k v rest hp hb
  have hstep := runSets_pending rest (ReactiveJsonFile.setAttribute f t k v)
    (t + 500) rfl hb
  rw [ReactiveJsonFile.runSets]
  simp only [hp]
  rw [hstep]
  simp [ReactiveJsonFile.setAttribute, ReactiveJsonFile.restartUploadTimer, applySets]

/-- C7 witness: five writes at times 0, 100, 200, 300, 400 (each within 500ms
of the previous) on a document with no pending timer produce exactly one
upload reflecting the final merged mapping. -/
theorem claim_C7_witness :
    ReactiveJsonFile.runSets jf0 ((0, s2l "a", JSVal.num 1) :: evsC7rest) =
      ({ jf0 with values := applySets jf0.values ((0, s2l "a", JSVal.num 1) :: evsC7rest),
                  pendingTimeout := none },
        [JEvent.upload (applySets jf0.values ((0, s2l "a", JSVal.num 1) :: evsC7rest)),
          JEvent.notifyChange]) :=
  claim_C7.2.2 jf0 0 (s2l "a") (JSVal.num 1) evsC7rest rfl (by decide)
